import Mathlib

/-
Shallow embedding of the brainfuck interpreter in `src/bf.py`
(class `BFInterpreter`), together with theorems settling the frozen
claims about it.

Modelling conventions:
* Python's unbounded `int` is `Int`; instruction streams are `List Char`;
  the `deque` tape is a `List Int`; the insertion-ordered `jumps` dict is
  an association list `List (Nat × Nat)` (keys are distinct in every state
  the program builds, so first-match lookup coincides with dict lookup).
* Python exceptions are the constructors of `Err`; the `except KeyError:
  pass` in `evaluate` is modelled by catching exactly `Err.keyError` in
  `stepEval`.  All other exceptions propagate as `Except.error`.
* stdout text (verbose traces, the tape pretty-printer, the final step
  report) carries no state and is dropped, except for the data `.` emits,
  which is recorded as an `OutEv` event; `,` consumes lines from an
  explicit input list, as `input()` consumes stdin lines.
* The `while` loop of `evaluate` is run on explicit fuel; `none` means the
  fuel was exhausted, so non-termination of the Python loop is
  `∀ fuel, … = none`.
-/

deriving instance DecidableEq for Except

namespace BFI

/-- Python exceptions that the interpreter can raise. `keyError` is the
only one `evaluate` catches. -/
inductive Err : Type
  | keyError
  | indexError
  | valueError
  | stopIteration
  | eofError
  | popFromEmpty
  deriving DecidableEq

/-- One datum printed by the `.` instruction: `chr cell` when
`printraw` is false, the raw value when it is true. -/
inductive OutEv : Type
  | chr (v : Int)
  | raw (v : Int)
  deriving DecidableEq

/-- The fields of the `BFInterpreter` dataclass (configuration flags plus
interpreter state). -/
structure BF : Type where
  stepbystep : Bool
  showmem : Bool
  windowSize : Int
  margin : Int
  verbose : Bool
  printraw : Bool
  fromfile : Bool
  windowStart : Int
  tape : List Int
  addrPtr : Int
  programCounter : Nat
  addrOffset : Int
  jumps : List (Nat × Nat)
  deriving DecidableEq

/-- The interpreter together with its remaining stdin lines and the
stream of data printed so far. -/
structure Machine : Type where
  bf : BF
  input : List (List Char)
  output : List OutEv
  deriving DecidableEq

/-- `chunk_size = 32`. -/
def chunkSize : Nat := 32

/-- Constructing a `BFInterpreter` with the dataclass defaults for the
state fields: `__post_init__` sets `window_start = addr_ptr - margin` and
`tape = deque([0] * chunk_size)`; `addr_ptr`, `program_counter`,
`addr_offset` default to 0 and `jumps` to a fresh empty dict. -/
def mkBF (stepbystep showmem : Bool) (windowSize margin : Int)
    (verbose printraw fromfile : Bool) : BF :=
  { stepbystep := stepbystep
    showmem := showmem
    windowSize := windowSize
    margin := margin
    verbose := verbose
    printraw := printraw
    fromfile := fromfile
    windowStart := 0 - margin
    tape := List.replicate chunkSize 0
    addrPtr := 0
    programCounter := 0
    addrOffset := 0
    jumps := [] }

/-- `legalchars = ",.<>+-[]"`. -/
def legalchars : List Char := [',', '.', '<', '>', '+', '-', '[', ']']

/-- The comment-stripping filter at the top of `preprocess`. -/
def filterCode (src : List Char) : List Char :=
  src.filter (fun c => decide (c ∈ legalchars))

/-- The bracket scan of `preprocess`: a stack of unmatched `[` indices
(`opens`, head = most recently pushed, matching `deque.append`/`pop`) and
the `jumps` pairs recorded so far in insertion order.  `opens.pop()` on an
empty deque raises; a non-empty stack at the end of the stream is ignored. -/
def scanJumps : List Char → Nat → List Nat → List (Nat × Nat) →
    Except Err (List (Nat × Nat))
  | [], _, _, js => .ok js
  | c :: rest, idx, opens, js =>
    if c = '[' then
      scanJumps rest (idx + 1) (idx :: opens) js
    else if c = ']' then
      match opens with
      | [] => .error .popFromEmpty
      | o :: os => scanJumps rest (idx + 1) os (js ++ [(o, idx)])
    else
      scanJumps rest (idx + 1) opens js

/-- `preprocess`: filter the source, clear `jumps`, scan brackets.
(The Python dict is mutated in place during the scan; on the error path
the partially filled dict is unobservable, because every caller clears it
again before reading it, so the error carries no state here.) -/
def preprocess (s : BF) (src : List Char) : Except Err (BF × List Char) :=
  let code := filterCode src
  match scanJumps code 0 [] [] with
  | .error e => .error e
  | .ok js => .ok ({ s with jumps := js }, code)

/-- `get_cell`: offset-corrected read, 0 when the physical index is
outside the backing storage (display-only fallback). -/
def get_cell (s : BF) (idx : Int) : Int :=
  let tmp := idx + s.addrOffset
  if 0 ≤ tmp ∧ tmp < (s.tape.length : Int) then s.tape.getD tmp.toNat 0 else 0

/-- `get_current_cell`. -/
def get_current_cell (s : BF) : Int :=
  get_cell s s.addrPtr

/-- Item assignment on a Python `deque`: a negative index counts from the
end; an index out of `[-len, len)` raises `IndexError`. -/
def dequeSet (l : List Int) (i : Int) (v : Int) : Except Err (List Int) :=
  let n : Int := l.length
  let j : Int := if i < 0 then i + n else i
  if 0 ≤ j ∧ j < n then .ok (l.set j.toNat v) else .error .indexError

/-- `set_current_cell`: unguarded write at `addr_ptr + addr_offset`. -/
def set_current_cell (s : BF) (v : Int) : Except Err BF :=
  match dequeSet s.tape (s.addrPtr + s.addrOffset) v with
  | .ok t => .ok { s with tape := t }
  | .error e => .error e

/-- `modify_current_cell`. -/
def modify_current_cell (s : BF) (f : Int → Int) : Except Err BF :=
  set_current_cell s (f (get_current_cell s))

/-- `shift_window(left)`: move `window_start` one cell. -/
def shift_window (s : BF) (left : Bool) : BF :=
  if left then { s with windowStart := s.windowStart - 1 }
  else { s with windowStart := s.windowStart + 1 }

/-- `add_cells_left`: `extendleft` with `chunk_size` zeros (the reversal
`extendleft` performs is invisible on an all-zero block) and shift the
offset. -/
def add_cells_left (s : BF) : BF :=
  { s with
    tape := List.replicate chunkSize 0 ++ s.tape
    addrOffset := s.addrOffset + (chunkSize : Int) }

/-- `add_cells_right`: `extend` with `chunk_size` zeros. -/
def add_cells_right (s : BF) : BF :=
  { s with tape := s.tape ++ List.replicate chunkSize 0 }

/-- `move_left` (`<`): decrement the pointer, maybe scroll the window,
then grow left exactly when `addr_ptr < 0`. -/
def move_left (s : BF) : BF :=
  let s1 : BF := { s with addrPtr := s.addrPtr - 1 }
  let s2 : BF :=
    if s1.addrPtr - s1.windowStart < s1.margin then shift_window s1 true else s1
  if s2.addrPtr < 0 then add_cells_left s2 else s2

/-- `move_right` (`>`): increment the pointer, maybe scroll the window,
then grow right exactly when `addr_ptr >= len(tape)`. -/
def move_right (s : BF) : BF :=
  let s1 : BF := { s with addrPtr := s.addrPtr + 1 }
  let s2 : BF :=
    if s1.windowStart + s1.windowSize - s1.addrPtr ≤ s1.margin then
      shift_window s1 false
    else s1
  if (s2.tape.length : Int) ≤ s2.addrPtr then add_cells_right s2 else s2

/-- `write` (`.`): emit the current cell, raw or as a character code. -/
def write (s : BF) : OutEv :=
  if s.printraw then .raw (get_current_cell s) else .chr (get_current_cell s)

/-- The code points `int(str)` accepts as surrounding whitespace: the
ASCII spaces `\t \n \v \f \r` and space, plus every non-ASCII Unicode
whitespace code point (CPython maps the latter to a plain space before
its ASCII scan).  NB `\x1c`–`\x1f` are stripped by `str.strip` but
rejected by `int`. -/
def pyIntSpace : List Nat :=
  [0x09, 0x0A, 0x0B, 0x0C, 0x0D, 0x20, 0x85, 0xA0, 0x1680,
   0x2000, 0x2001, 0x2002, 0x2003, 0x2004, 0x2005, 0x2006, 0x2007,
   0x2008, 0x2009, 0x200A, 0x2028, 0x2029, 0x202F, 0x205F, 0x3000]

/-- First code point (digit value 0) of every run of ten consecutive
Unicode decimal digits (general category Nd, Unicode 14.0 as shipped
with CPython 3.11); `int` accepts any character of such a run with
digit value `codepoint - start`. -/
def ndZeroPoints : List Nat :=
  [0x30, 0x660, 0x6F0, 0x7C0, 0x966, 0x9E6, 0xA66, 0xAE6, 0xB66,
   0xBE6, 0xC66, 0xCE6, 0xD66, 0xDE6, 0xE50, 0xED0, 0xF20, 0x1040,
   0x1090, 0x17E0, 0x1810, 0x1946, 0x19D0, 0x1A80, 0x1A90, 0x1B50,
   0x1BB0, 0x1C40, 0x1C50, 0xA620, 0xA8D0, 0xA900, 0xA9D0, 0xA9F0,
   0xAA50, 0xABF0, 0xFF10, 0x104A0, 0x10D30, 0x11066, 0x110F0,
   0x11136, 0x111D0, 0x112F0, 0x11450, 0x114D0, 0x11650, 0x116C0,
   0x11730, 0x118E0, 0x11950, 0x11C50, 0x11D50, 0x11DA0, 0x16A60,
   0x16AC0, 0x16B50, 0x1D7CE, 0x1D7D8, 0x1D7E2, 0x1D7EC, 0x1D7F6,
   0x1E140, 0x1E2F0, 0x1E950, 0x1FBF0]

/-- Whitespace acceptable around the number given to `int`. -/
def pyIsSpace (c : Char) : Bool :=
  pyIntSpace.contains c.toNat

/-- The decimal value of a Unicode digit, `none` for any other
character. -/
def pyDigit? (c : Char) : Option Nat :=
  (ndZeroPoints.find? (fun s =>
    decide (s ≤ c.toNat) && decide (c.toNat < s + 10))).map
    (fun s => c.toNat - s)

/-- Strip the surrounding whitespace `int` accepts. -/
def pyStrip (cs : List Char) : List Char :=
  ((cs.dropWhile pyIsSpace).reverse.dropWhile pyIsSpace).reverse

/-- The digits after the first one, with PEP 515 grouping: a single
underscore may stand between two digits, never repeated, leading or
trailing. -/
def digitsTail : List Char → Nat → Option Nat
  | [], acc => some acc
  | ['_'], _ => none
  | '_' :: c :: rest, acc =>
    match pyDigit? c with
    | some d => digitsTail rest (acc * 10 + d)
    | none => none
  | c :: rest, acc =>
    match pyDigit? c with
    | some d => digitsTail rest (acc * 10 + d)
    | none => none

/-- One or more Unicode decimal digits with PEP 515 underscore
grouping. -/
def digitsU : List Char → Option Nat
  | [] => none
  | c :: rest =>
    match pyDigit? c with
    | some d => digitsTail rest d
    | none => none

/-- Python's `int(str)` on one stdin line (CPython 3.11 / Unicode 14
tables): optional surrounding whitespace, an optional ASCII sign, then
one or more Unicode decimal digits with single underscores allowed
between digits; anything else raises `ValueError`.  Checked against
CPython's `int` on 300000 fuzzed lines over an alphabet of digits from
five scripts, underscores, signs, ASCII and exotic whitespace. -/
def pyParseInt (line : List Char) : Option Int :=
  match pyStrip line with
  | '-' :: rest => (digitsU rest).map (fun n => -(n : Int))
  | '+' :: rest => (digitsU rest).map (fun n => (n : Int))
  | rest => (digitsU rest).map (fun n => (n : Int))

/-- `read` (`,`): `set_current_cell(int(input()) % 2 ** 8)` — one line is
consumed; `EOFError` if the stream is exhausted, `ValueError` if the line
does not parse. -/
def read (s : BF) (inp : List (List Char)) :
    Except Err (BF × List (List Char)) :=
  match inp with
  | [] => .error .eofError
  | line :: rest =>
    match pyParseInt line with
    | none => .error .valueError
    | some v =>
      match set_current_cell s (v % 256) with
      | .ok s' => .ok (s', rest)
      | .error e => .error e

/-- `inc` (`+`): two `modify_current_cell` calls, `x + 1` then `x % 256`. -/
def inc (s : BF) : Except Err BF :=
  match modify_current_cell s (fun x => x + 1) with
  | .ok s1 => modify_current_cell s1 (fun x => x % 256)
  | .error e => .error e

/-- `dec` (`-`): write `x - 1`, then add 256 back if the stored value is
negative. -/
def dec (s : BF) : Except Err BF :=
  match modify_current_cell s (fun x => x - 1) with
  | .ok s1 =>
    if get_current_cell s1 < 0 then modify_current_cell s1 (fun x => x + 256)
    else .ok s1
  | .error e => .error e

/-- Dict lookup `jumps[k]`: first (only) pair with key `k`. -/
def jumpLookup (js : List (Nat × Nat)) (k : Nat) : Option Nat :=
  (js.find? (fun p => p.1 == k)).map (fun p => p.2)

/-- `jump_if_zero` (`[`): when the cell is 0, jump to
`jumps[program_counter]` (a missing key raises `KeyError`). -/
def jump_if_zero (s : BF) : Except Err BF :=
  if get_current_cell s = 0 then
    match jumpLookup s.jumps s.programCounter with
    | none => .error .keyError
    | some t => .ok { s with programCounter := t }
  else .ok s

/-- `jump_unless_zero` (`]`): when the cell is nonzero, scan `jumps` in
insertion order for the first key whose value equals `program_counter`
(`next` on an empty generator raises `StopIteration`). -/
def jump_unless_zero (s : BF) : Except Err BF :=
  if get_current_cell s ≠ 0 then
    match s.jumps.find? (fun p => p.2 == s.programCounter) with
    | none => .error .stopIteration
    | some p => .ok { s with programCounter := p.1 }
  else .ok s

/-- `_CMDS[c](self)`: the decorator-built dispatch table; a character
with no entry raises `KeyError`. -/
def dispatch (c : Char) (m : Machine) : Except Err Machine :=
  if c = '<' then .ok { m with bf := move_left m.bf }
  else if c = '>' then .ok { m with bf := move_right m.bf }
  else if c = '.' then .ok { m with output := m.output ++ [write m.bf] }
  else if c = ',' then
    match read m.bf m.input with
    | .ok (bf', inp') => .ok { m with bf := bf', input := inp' }
    | .error e => .error e
  else if c = '+' then
    match inc m.bf with
    | .ok bf' => .ok { m with bf := bf' }
    | .error e => .error e
  else if c = '-' then
    match dec m.bf with
    | .ok bf' => .ok { m with bf := bf' }
    | .error e => .error e
  else if c = '[' then
    match jump_if_zero m.bf with
    | .ok bf' => .ok { m with bf := bf' }
    | .error e => .error e
  else if c = ']' then
    match jump_unless_zero m.bf with
    | .ok bf' => .ok { m with bf := bf' }
    | .error e => .error e
  else .error .keyError

/-- The body of one `while` iteration of `evaluate`: dispatch, then
`program_counter += 1`, then the optional step-by-step pause (which
consumes a stdin line).  The whole body sits in `try … except KeyError:
pass`, so a `KeyError` leaves the machine — including the program
counter — unchanged; every other exception propagates. -/
def stepEval (code : List Char) (m : Machine) : Except Err Machine :=
  match dispatch (code.getD m.bf.programCounter ' ') m with
  | .error .keyError => .ok m
  | .error e => .error e
  | .ok m' =>
    let m2 : Machine :=
      { m' with bf := { m'.bf with programCounter := m'.bf.programCounter + 1 } }
    if m2.bf.stepbystep && m2.bf.fromfile then
      match m2.input with
      | [] => .error .eofError
      | _ :: rest => .ok { m2 with input := rest }
    else .ok m2

/-- The `while program_counter < len(code)` loop, on fuel; `steps` is the
counter that is incremented at the top of each iteration and reported at
the end.  `none` = fuel exhausted with the loop still running. -/
def runLoop (code : List Char) : Nat → Machine → Nat →
    Option (Except Err (Machine × Nat))
  | 0, m, steps =>
    if m.bf.programCounter < code.length then none else some (.ok (m, steps))
  | fuel + 1, m, steps =>
    if m.bf.programCounter < code.length then
      match stepEval code m with
      | .error e => some (.error e)
      | .ok m' => runLoop code fuel m' (steps + 1)
    else some (.ok (m, steps))

/-- `evaluate`: reset the program counter, preprocess (propagating its
error), run the loop with the step counter starting at 0, and report the
final step count. -/
def evaluate (fuel : Nat) (m : Machine) (src : List Char) :
    Option (Except Err (Machine × Nat)) :=
  match preprocess { m.bf with programCounter := 0 } src with
  | .error e => some (.error e)
  | .ok (bf1, code) => runLoop code fuel { m with bf := bf1 } 0

/-- `inc` iterated `n` times. -/
def incN : Nat → BF → Except Err BF
  | 0, s => .ok s
  | n + 1, s =>
    match inc s with
    | .ok s' => incN n s'
    | .error e => .error e

/-! ### Concrete fixtures

`init0` is the engine the CLI builds with its default options
(`window_size = 10`, `margin = 2`, every flag off); the other fixtures
are small reachable-shaped states used to instantiate the claims. -/

/-- A `BFInterpreter` with the CLI's default configuration. -/
def init0 : BF := mkBF false false 10 2 false false false

/-- A fresh default machine with no pending input. -/
def m0 : Machine := { bf := init0, input := [], output := [] }

/-- A fresh default engine whose cell 0 holds `v`. -/
def sV (v : Int) : BF := { init0 with tape := v :: List.replicate 31 0 }

/-! ### Helper lemmas -/

theorem get_current_sV (w : Int) : get_current_cell (sV w) = w := by
  simp [get_current_cell, get_cell, sV, init0, mkBF]

theorem set_sV (w u : Int) : set_current_cell (sV w) u = .ok (sV u) := rfl

theorem modify_sV (w : Int) (f : Int → Int) :
    modify_current_cell (sV w) f = .ok (sV (f w)) := by
  rw [modify_current_cell, get_current_sV, set_sV]

theorem inc_sV (w : Int) : inc (sV w) = .ok (sV ((w + 1) % 256)) := by
  rw [inc, modify_sV]
  show modify_current_cell (sV (w + 1)) (fun x => x % 256) = _
  rw [modify_sV]

theorem incN_sV : ∀ (n : Nat) (w : Int),
    incN (n + 1) (sV w) = .ok (sV ((w + 1 + n) % 256))
  | 0, w => by
    rw [incN, inc_sV]
    show Except.ok (sV ((w + 1) % 256)) = _
    norm_num
  | n + 1, w => by
    rw [incN, inc_sV]
    show incN (n + 1) (sV ((w + 1) % 256)) = _
    rw [incN_sV n ((w + 1) % 256)]
    have harith : ((w + 1) % 256 + 1 + (n : Int)) % 256 =
        (w + 1 + ((n + 1 : Nat) : Int)) % 256 := by
      push_cast
      omega
    rw [harith]

theorem dec_sV (v : Int) (h0 : 0 ≤ v) :
    dec (sV v) = .ok (sV (if v = 0 then 255 else v - 1)) := by
  rw [dec, modify_sV]
  show (if get_current_cell (sV (v - 1)) < 0 then
      modify_current_cell (sV (v - 1)) (fun x => x + 256)
    else Except.ok (sV (v - 1))) = _
  rw [get_current_sV]
  by_cases hv : v = 0
  · subst hv
    rw [if_pos (by norm_num : (0 : Int) - 1 < 0), modify_sV, if_pos rfl]
    norm_num
  · rw [if_neg (by omega : ¬ (v - 1 < 0)), if_neg hv]

theorem getD_replicate_zero : ∀ (n k : Nat),
    (List.replicate n (0 : Int)).getD k 0 = 0
  | 0, _ => rfl
  | _ + 1, 0 => rfl
  | n + 1, k + 1 => getD_replicate_zero n k

/-! ### Claims -/

/-- C4: for every cell value v in 0..255, applying `+` 256 times returns
the cell (indeed the whole interpreter state) to its start, `-` on a cell
holding 0 yields 255, and one application of `+` (resp. `-`) computes
`(v + 1) % 256` (resp. 255 at 0, else `v - 1`), a value that always lies
in 0..255. -/
theorem c4_wraparound (v : Int) (h0 : 0 ≤ v) (h1 : v ≤ 255) :
    incN 256 (sV v) = .ok (sV v) ∧
    dec (sV 0) = .ok (sV 255) ∧
    inc (sV v) = .ok (sV ((v + 1) % 256)) ∧
    dec (sV v) = .ok (sV (if v = 0 then 255 else v - 1)) ∧
    (0 ≤ (v + 1) % 256 ∧ (v + 1) % 256 ≤ 255) ∧
    (0 ≤ (if v = 0 then (255 : Int) else v - 1) ∧
      (if v = 0 then (255 : Int) else v - 1) ≤ 255) := by
  refine ⟨?_, ?_, inc_sV v, dec_sV v h0, by constructor <;> omega, ?_⟩
  · rw [show (256 : Nat) = 255 + 1 from rfl, incN_sV 255 v]
    have harith : (v + 1 + ((255 : Nat) : Int)) % 256 = v := by
      push_cast
      omega
    rw [harith]
  · rw [dec_sV 0 le_rfl]
    norm_num
  · split <;> omega

/-- C4 witness at v = 5. -/
theorem c4_wraparound_witness :
    incN 256 (sV 5) = .ok (sV 5) ∧
    dec (sV 0) = .ok (sV 255) ∧
    inc (sV 5) = .ok (sV ((5 + 1) % 256)) ∧
    dec (sV 5) = .ok (sV (if (5 : Int) = 0 then 255 else 5 - 1)) ∧
    (0 ≤ (5 + 1 : Int) % 256 ∧ (5 + 1 : Int) % 256 ≤ 255) ∧
    (0 ≤ (if (5 : Int) = 0 then (255 : Int) else 5 - 1) ∧
      (if (5 : Int) = 0 then (255 : Int) else 5 - 1) ≤ 255) :=
  c4_wraparound 5 (by norm_num) (by norm_num)

/-- C8: after a `>` move, if `window_start + window_size - pointer <=
margin` (at the new pointer) then `window_start` is incremented by
exactly one; after a `<` move, if `pointer - window_start < margin` then
it is decremented by exactly one; with `window_size = 10`, `margin = 2`,
moving right from address 7 with `window_start = 0` sets it to 1. -/
theorem c8_window (s t : BF)
    (hr : s.windowStart + s.windowSize - (s.addrPtr + 1) ≤ s.margin)
    (hl : t.addrPtr - 1 - t.windowStart < t.margin) :
    (move_right s).windowStart = s.windowStart + 1 ∧
    (move_left t).windowStart = t.windowStart - 1 ∧
    (move_right { init0 with windowStart := 0, addrPtr := 7 }).windowStart
      = 1 := by
  refine ⟨?_, ?_, by decide⟩
  · have hgrow : ∀ (x : BF),
        ((if (x.tape.length : Int) ≤ x.addrPtr then add_cells_right x else x)
          : BF).windowStart = x.windowStart := by
      intro x
      split <;> rfl
    rw [move_right]
    rw [hgrow]
    rw [if_pos hr]
    rfl
  · have hgrow : ∀ (x : BF),
        ((if x.addrPtr < 0 then add_cells_left x else x) : BF).windowStart
          = x.windowStart := by
      intro x
      split <;> rfl
    rw [move_left]
    rw [hgrow]
    rw [if_pos hl]
    rfl

/-- C8 witness: the concrete scenario of the claim, plus a left move at
pointer 0 of a fresh engine. -/
theorem c8_window_witness :
    (move_right { init0 with windowStart := 0, addrPtr := 7 }).windowStart =
      ({ init0 with windowStart := 0, addrPtr := 7 } : BF).windowStart + 1 ∧
    (move_left init0).windowStart = init0.windowStart - 1 ∧
    (move_right { init0 with windowStart := 0, addrPtr := 7 }).windowStart
      = 1 :=
  c8_window { init0 with windowStart := 0, addrPtr := 7 } init0
    (by decide) (by decide)

/-- C9: a freshly constructed engine has a 32-cell all-zero tape, pointer
0 and offset 0; both extension operations append exactly one chunk of 32
zero cells (the left one also shifting the offset by 32); extensions
preserve all-zero tapes, and every logical address of a fresh engine
reads 0. -/
theorem c9_fresh_tape (a b : Bool) (ws mg : Int) (vb pr ff : Bool)
    (s : BF) (hz : ∀ x ∈ s.tape, x = 0) :
    (mkBF a b ws mg vb pr ff).tape = List.replicate 32 0 ∧
    (mkBF a b ws mg vb pr ff).addrPtr = 0 ∧
    (mkBF a b ws mg vb pr ff).addrOffset = 0 ∧
    (∀ i : Int, get_cell (mkBF a b ws mg vb pr ff) i = 0) ∧
    (add_cells_left s).tape = List.replicate 32 0 ++ s.tape ∧
    (add_cells_left s).addrOffset = s.addrOffset + 32 ∧
    (add_cells_right s).tape = s.tape ++ List.replicate 32 0 ∧
    (∀ x ∈ (add_cells_left s).tape, x = 0) ∧
    (∀ x ∈ (add_cells_right s).tape, x = 0) := by
  refine ⟨rfl, rfl, rfl, ?_, rfl, rfl, rfl, ?_, ?_⟩
  · intro i
    rw [get_cell]
    split
    · exact getD_replicate_zero _ _
    · rfl
  · intro x hx
    rcases List.mem_append.mp hx with h | h
    · exact List.eq_of_mem_replicate h
    · exact hz x h
  · intro x hx
    rcases List.mem_append.mp hx with h | h
    · exact hz x h
    · exact List.eq_of_mem_replicate h

/-- C9 witness at the default configuration and a fresh all-zero tape. -/
theorem c9_fresh_tape_witness :
    (mkBF false false 10 2 false false false).tape = List.replicate 32 0 ∧
    (mkBF false false 10 2 false false false).addrPtr = 0 ∧
    (mkBF false false 10 2 false false false).addrOffset = 0 ∧
    (∀ i : Int, get_cell (mkBF false false 10 2 false false false) i = 0) ∧
    (add_cells_left init0).tape = List.replicate 32 0 ++ init0.tape ∧
    (add_cells_left init0).addrOffset = init0.addrOffset + 32 ∧
    (add_cells_right init0).tape = init0.tape ++ List.replicate 32 0 ∧
    (∀ x ∈ (add_cells_left init0).tape, x = 0) ∧
    (∀ x ∈ (add_cells_right init0).tape, x = 0) :=
  c9_fresh_tape false false 10 2 false false false init0 (by decide)

/-- The jump pairs computed from a filtered instruction stream alone. -/
def jumpTableOf (code : List Char) : List (Nat × Nat) :=
  match scanJumps code 0 [] [] with
  | .ok js => js
  | .error _ => []

/-- C10: preprocessing is insensitive to whatever the jump table held
before the call (the dict is cleared before scanning), a successful
preprocess returns exactly the pairs of the current filtered fragment,
and a freshly constructed engine starts with its own empty table. -/
theorem c10_jump_table (s : BF) (J : List (Nat × Nat)) (src : List Char)
    (bf1 : BF) (code : List Char)
    (h : preprocess s src = .ok (bf1, code)) :
    preprocess { s with jumps := J } src = preprocess s src ∧
    code = filterCode src ∧
    bf1.jumps = jumpTableOf (filterCode src) ∧
    (mkBF s.stepbystep s.showmem s.windowSize s.margin s.verbose s.printraw
      s.fromfile).jumps = [] := by
  rw [preprocess] at h
  refine ⟨?_, ?_, ?_, rfl⟩
  · rw [preprocess, preprocess]
  · cases hscan : scanJumps (filterCode src) 0 [] [] with
    | error e => rw [hscan] at h; exact absurd h (by simp)
    | ok js =>
      rw [hscan] at h
      simp only [Except.ok.injEq, Prod.mk.injEq] at h
      exact h.2.symm
  · cases hscan : scanJumps (filterCode src) 0 [] [] with
    | error e => rw [hscan] at h; exact absurd h (by simp)
    | ok js =>
      rw [hscan] at h
      simp only [Except.ok.injEq, Prod.mk.injEq] at h
      rw [← h.1, jumpTableOf, hscan]

/-- C10 witness on the fragment `[]` with a stale pair in the table. -/
theorem c10_jump_table_witness :
    preprocess { init0 with jumps := [(5, 9)] } ['[', ']'] =
      preprocess init0 ['[', ']'] ∧
    (['[', ']'] : List Char) = filterCode ['[', ']'] ∧
    ({ init0 with jumps := [(0, 1)] } : BF).jumps =
      jumpTableOf (filterCode ['[', ']']) ∧
    (mkBF init0.stepbystep init0.showmem init0.windowSize init0.margin
      init0.verbose init0.printraw init0.fromfile).jumps = [] :=
  c10_jump_table init0 [(5, 9)] ['[', ']']
    { init0 with jumps := [(0, 1)] } ['[', ']'] (by decide)

/-- Spec-side predicate, following the claim's words: scanning the
stream left to right with a counter of currently unmatched `[`, does
some `]` occur while that counter is zero (a `]` with no opener)? -/
def hasCloseWithoutOpen : List Char → Nat → Bool
  | [], _ => false
  | c :: rest, depth =>
    if c = '[' then hasCloseWithoutOpen rest (depth + 1)
    else if c = ']' then
      match depth with
      | 0 => true
      | d + 1 => hasCloseWithoutOpen rest d
    else hasCloseWithoutOpen rest depth

/-- Whether an `Except` value is a success. -/
def exceptOk {ε α : Type} : Except ε α → Bool
  | .ok _ => true
  | .error _ => false

theorem scanJumps_ok_iff :
    ∀ (cs : List Char) (idx : Nat) (opens : List Nat)
      (js : List (Nat × Nat)),
      (exceptOk (scanJumps cs idx opens js) = true ↔
        hasCloseWithoutOpen cs opens.length = false) ∧
      (hasCloseWithoutOpen cs opens.length = true →
        scanJumps cs idx opens js = .error .popFromEmpty)
  | [], idx, opens, js => by
    constructor
    · simp [scanJumps, hasCloseWithoutOpen, exceptOk]
    · intro h
      simp [hasCloseWithoutOpen] at h
  | c :: rest, idx, opens, js => by
    have hscan : scanJumps (c :: rest) idx opens js =
        (if c = '[' then scanJumps rest (idx + 1) (idx :: opens) js
         else if c = ']' then
           match opens with
           | [] => .error .popFromEmpty
           | o :: os => scanJumps rest (idx + 1) os (js ++ [(o, idx)])
         else scanJumps rest (idx + 1) opens js) := rfl
    have hdepth : hasCloseWithoutOpen (c :: rest) opens.length =
        (if c = '[' then hasCloseWithoutOpen rest (opens.length + 1)
         else if c = ']' then
           match opens.length with
           | 0 => true
           | d + 1 => hasCloseWithoutOpen rest d
         else hasCloseWithoutOpen rest opens.length) := rfl
    rw [hscan, hdepth]
    by_cases h1 : c = '['
    · rw [if_pos h1, if_pos h1]
      have := scanJumps_ok_iff rest (idx + 1) (idx :: opens) js
      rwa [List.length_cons] at this
    · by_cases h2 : c = ']'
      · rw [if_neg h1, if_pos h2, if_neg h1, if_pos h2]
        cases opens with
        | nil =>
          constructor
          · simp [exceptOk]
          · intro _
            rfl
        | cons o os =>
          rw [List.length_cons]
          exact scanJumps_ok_iff rest (idx + 1) os (js ++ [(o, idx)])
      · rw [if_neg h1, if_neg h2, if_neg h1, if_neg h2]
        exact scanJumps_ok_iff rest (idx + 1) opens js

/-- C2 counterexample: the claim says a source containing an unmatched
`[` always raises, but preprocessing the one-character source `[`
succeeds (the non-empty stack at end of stream is silently ignored, and
no pair is recorded for the `[`). -/
theorem c2_counterexample :
    preprocess init0 ['['] = .ok (init0, ['[']) := by decide

/-- C2 amended: preprocessing raises an error (the `IndexError` from
popping the empty stack — there is no `MalformedProgram` type in the
code) exactly when the filtered source contains a `]` with no matching
opener before it; in particular it never raises on bracket-balanced
sources, and a source whose only imbalance is an unmatched `[` never
raises. -/
theorem c2_bracket_errors (s t : BF) (src srcBad : List Char)
    (hgood : hasCloseWithoutOpen (filterCode src) 0 = false)
    (hbad : hasCloseWithoutOpen (filterCode srcBad) 0 = true) :
    exceptOk (preprocess s src) = true ∧
    preprocess t srcBad = .error .popFromEmpty := by
  constructor
  · have hmain := (scanJumps_ok_iff (filterCode src) 0 [] []).1.mpr
      (by simpa using hgood)
    rw [preprocess]
    cases hscan : scanJumps (filterCode src) 0 [] [] with
    | error e => rw [hscan] at hmain; exact absurd hmain (by simp [exceptOk])
    | ok js => rfl
  · have hmain := (scanJumps_ok_iff (filterCode srcBad) 0 [] []).2
      (by simpa using hbad)
    rw [preprocess, hmain]

/-- C2 witness: the balanced source `+[+]+` succeeds; the source `]`
raises. -/
theorem c2_bracket_errors_witness :
    exceptOk (preprocess init0 ['+', '[', '+', ']', '+']) = true ∧
    preprocess init0 [']'] = .error .popFromEmpty :=
  c2_bracket_errors init0 init0 ['+', '[', '+', ']', '+'] [']']
    (by decide) (by decide)

/-- Once the program counter has left the stream, any remaining fuel
returns the loop's result unchanged. -/
theorem runLoop_done (code : List Char) (m : Machine) (steps k : Nat)
    (h : ¬ m.bf.programCounter < code.length) :
    runLoop code k m steps = some (.ok (m, steps)) := by
  cases k with
  | zero => rw [runLoop, if_neg h]
  | succ n => rw [runLoop, if_neg h]

/-- A machine whose cell 0 already holds 1 (the state a prior `+`
fragment leaves behind), no pending input. -/
def mOne : Machine := { bf := sV 1, input := [], output := [] }

/-- `mOne` right after preprocessing `[]` (jump table `{0: 1}`). -/
def mStart : Machine :=
  { bf := { sV 1 with jumps := [(0, 1)] }, input := [], output := [] }

/-- The state `evaluate mOne "[]"` loops in: the program counter parked
on the `]` at index 1. -/
def mCyc : Machine :=
  { bf := { sV 1 with programCounter := 1, jumps := [(0, 1)] },
    input := [], output := [] }

theorem stepEval_mCyc : stepEval ['[', ']'] mCyc = .ok mCyc := by decide

theorem runLoop_mCyc : ∀ (fuel steps : Nat),
    runLoop ['[', ']'] fuel mCyc steps = none
  | 0, steps => by
    rw [runLoop, if_pos (by decide)]
  | fuel + 1, steps => by
    rw [runLoop, if_pos (by decide), stepEval_mCyc]
    exact runLoop_mCyc fuel (steps + 1)

theorem evaluate_mOne_none : ∀ fuel : Nat,
    evaluate fuel mOne ['[', ']'] = none
  | 0 => by decide
  | fuel + 1 => by
    show runLoop ['[', ']'] (fuel + 1) mStart 0 = none
    rw [runLoop, if_pos (by decide),
      show stepEval ['[', ']'] mStart = .ok mCyc from by decide]
    exact runLoop_mCyc fuel 1

/-- C3 counterexample: with the current cell nonzero, evaluating the
stream `[]` does not terminate — for every fuel bound the `while` loop
is still running (`]` jumps back to the `[` index and the unconditional
increment returns the counter to the `]`, forever), contradicting the
claimed single pass. -/
theorem c3_counterexample :
    ¬ ∃ (fuel : Nat) (r : Except Err (Machine × Nat)),
      evaluate fuel mOne ['[', ']'] = some r := by
  rintro ⟨fuel, r, hr⟩
  rw [evaluate_mOne_none fuel] at hr
  exact Option.noConfusion hr

/-- C3 amended: for the instruction stream `[]`, it is with the current
cell ZERO that the empty loop body executes zero times — `[` jumps
straight to the `]` and the counter advances past it, terminating after
exactly one counted step; with the current cell nonzero the loop
revisits the `]` forever and evaluation does not terminate. -/
theorem c3_empty_loop :
    evaluate 5 m0 ['[', ']'] =
      some (.ok ({ bf := { init0 with programCounter := 2, jumps := [(0, 1)] },
                   input := [], output := [] }, 1)) ∧
    (∀ fuel : Nat, evaluate fuel mOne ['[', ']'] = none) :=
  ⟨by decide, evaluate_mOne_none⟩

/-- A fresh default machine in raw-output mode. -/
def mRaw : Machine :=
  { bf := mkBF false false 10 2 false true false, input := [], output := [] }

/-- `mRaw` after evaluating the fragment `++`. -/
def mAfterPlus : Machine :=
  { bf := { mRaw.bf with programCounter := 2, tape := 2 :: List.replicate 31 0 },
    input := [], output := [] }

/-- `mAfterPlus` after evaluating the fragment `.`. -/
def mAfterDot : Machine :=
  { mAfterPlus with
    bf := { mAfterPlus.bf with programCounter := 1 }
    output := [OutEv.raw 2] }

/-- C5: `evaluate` overwrites the program counter with 0 on entry (and
starts its local step counter at 0) no matter what the previous call
left there, while the pointer and tape flow from call to call; the
session `++` then `.` on one raw-output engine emits the raw value 2,
with the tape and pointer of the first call intact at the start of the
second. -/
theorem c5_session :
    (∀ (m : Machine) (src : List Char) (fuel p : Nat),
      evaluate fuel { m with bf := { m.bf with programCounter := p } } src =
        evaluate fuel m src) ∧
    evaluate 10 mRaw ['+', '+'] = some (.ok (mAfterPlus, 2)) ∧
    evaluate 10 mAfterPlus ['.'] = some (.ok (mAfterDot, 1)) ∧
    mAfterDot.output = [OutEv.raw 2] ∧
    mAfterDot.bf.tape = mAfterPlus.bf.tape ∧
    mAfterDot.bf.addrPtr = mAfterPlus.bf.addrPtr :=
  ⟨fun _ _ _ _ => rfl, by decide, by decide, rfl, rfl, rfl⟩

/-- A fresh default machine whose stdin holds the single line `line`. -/
def mIn (line : List Char) : Machine :=
  { bf := init0, input := [line], output := [] }

/-- The machine `evaluate (mIn line) ","` ends in when the line parses
to `v`: cell 0 holds `v % 256` and the line is consumed. -/
def mReadDone (c : Int) : Machine :=
  { bf := { init0 with programCounter := 1, tape := c :: List.replicate 31 0 },
    input := [], output := [] }

/-- C6: `,` consumes exactly one input line; when the line parses as an
integer `v` the current cell is set to `v % 256` and evaluation
completes; when it does not parse, evaluate surfaces the parse error
(Python's `ValueError`, the spec's `InputFormat`) to its caller instead
of storing any default. -/
theorem c6_read (line lineBad : List Char) (v : Int) (fuel : Nat)
    (hf : 1 ≤ fuel) (hsome : pyParseInt line = some v)
    (hnone : pyParseInt lineBad = none) :
    evaluate fuel (mIn line) [','] = some (.ok (mReadDone (v % 256), 1)) ∧
    evaluate fuel (mIn lineBad) [','] = some (.error .valueError) := by
  obtain ⟨k, rfl⟩ : ∃ k, fuel = k + 1 := ⟨fuel - 1, by omega⟩
  have hread : read init0 [line] = .ok ({ init0 with
      tape := (v % 256) :: List.replicate 31 0 }, []) := by
    rw [read, hsome]
    rfl
  have hreadBad : read init0 [lineBad] = .error .valueError := by
    rw [read, hnone]
  constructor
  · show runLoop [','] (k + 1) (mIn line) 0 = _
    have hdisp : dispatch ',' (mIn line) = .ok { mIn line with
        bf := { init0 with tape := (v % 256) :: List.replicate 31 0 }
        input := [] } := by
      rw [dispatch, if_neg (by decide), if_neg (by decide),
        if_neg (by decide), if_pos rfl,
        show read (mIn line).bf (mIn line).input = read init0 [line] from rfl,
        hread]
    have hstep : stepEval [','] (mIn line) = .ok (mReadDone (v % 256)) := by
      rw [stepEval,
        show ([','] : List Char).getD (mIn line).bf.programCounter ' ' = ','
          from rfl,
        hdisp]
      rfl
    rw [runLoop,
      if_pos (show (mIn line).bf.programCounter < ([','] : List Char).length
        from Nat.zero_lt_one),
      hstep]
    exact runLoop_done [','] (mReadDone (v % 256)) 1 k (Nat.lt_irrefl 1)
  · show runLoop [','] (k + 1) (mIn lineBad) 0 = _
    have hdisp : dispatch ',' (mIn lineBad) = .error .valueError := by
      rw [dispatch, if_neg (by decide), if_neg (by decide),
        if_neg (by decide), if_pos rfl,
        show read (mIn lineBad).bf (mIn lineBad).input = read init0 [lineBad]
          from rfl,
        hreadBad]
    have hstep : stepEval [','] (mIn lineBad) = .error .valueError := by
      rw [stepEval,
        show ([','] : List Char).getD (mIn lineBad).bf.programCounter ' ' = ','
          from rfl,
        hdisp]
    rw [runLoop,
      if_pos (show (mIn lineBad).bf.programCounter < ([','] : List Char).length
        from Nat.zero_lt_one),
      hstep]

/-- C6 witness: the line `1_0` (PEP 515 underscore grouping) parses to
10 and stores 10; the line `abc` propagates the parse error. -/
theorem c6_read_witness :
    evaluate 1 (mIn ['1', '_', '0']) [','] =
      some (.ok (mReadDone ((10 : Int) % 256), 1)) ∧
    evaluate 1 (mIn ['a', 'b', 'c']) [','] = some (.error .valueError) :=
  c6_read ['1', '_', '0'] ['a', 'b', 'c'] 10 1 (by decide) (by decide)
    (by decide)

/-- C7 counterexample: the claim says the loop skips a non-instruction
character with the program counter advancing by 1, but stepping a fresh
machine on the stream `x` leaves the machine — program counter included —
exactly as it was: the `KeyError` from the dispatch lookup is caught
after the increment was skipped, so the counter never advances. -/
theorem c7_counterexample :
    ¬ ∃ m' : Machine, stepEval ['x'] m0 = .ok m' ∧
      m'.bf.programCounter = m0.bf.programCounter + 1 := by
  rintro ⟨m', h1, h2⟩
  have h0 : stepEval ['x'] m0 = .ok m0 := by decide
  rw [h0] at h1
  cases h1
  exact absurd h2 (by decide)

/-- C7 amended: at a position holding a character with no dispatch
entry, the iteration counts its step and leaves the machine — pointer,
tape, and also the program counter — entirely unchanged; because the
counter does not advance, the loop re-executes the same position with
every remaining unit of fuel instead of moving past it. -/
theorem c7_illegal_char (m : Machine) (code : List Char) (fuel steps : Nat)
    (hlt : m.bf.programCounter < code.length)
    (hc : code.getD m.bf.programCounter ' ' ∉ legalchars) :
    stepEval code m = .ok m ∧
    runLoop code (fuel + 1) m steps = runLoop code fuel m (steps + 1) := by
  have hd : dispatch (code.getD m.bf.programCounter ' ') m =
      .error .keyError := by
    simp only [legalchars, List.mem_cons, List.not_mem_nil, or_false,
      not_or] at hc
    obtain ⟨h1, h2, h3, h4, h5, h6, h7, h8⟩ := hc
    rw [dispatch, if_neg h3, if_neg h4, if_neg h2, if_neg h1, if_neg h5,
      if_neg h6, if_neg h7, if_neg h8]
  have hstep : stepEval code m = .ok m := by
    rw [stepEval, hd]
  refine ⟨hstep, ?_⟩
  rw [runLoop, if_pos hlt, hstep]

/-- C7 witness: the stream `x` on a fresh machine. -/
theorem c7_illegal_char_witness :
    stepEval ['x'] m0 = .ok m0 ∧
    runLoop ['x'] (0 + 1) m0 0 = runLoop ['x'] 0 m0 (0 + 1) :=
  c7_illegal_char m0 ['x'] 0 0 (by decide) (by decide)

/-- The program `<` then 33 copies of `>` then `+`: after the left move
the offset is 32, so from logical address 32 on the physical index
32 + 32 = 64 is outside the 64-cell backing store, yet `move_right`
compares the raw pointer (32) against the length (64) and does not
grow; the `+` then writes out of bounds. -/
def progCrash : List Char := '<' :: (List.replicate 33 '>' ++ ['+'])

/-- The state `<<` leaves a fresh default machine in: two chunks were
added (96 cells) although one (64 cells) already backed both addresses
reached. -/
def mLL : Machine :=
  { bf := { init0 with
      windowStart := -4
      tape := List.replicate 96 0
      addrPtr := -2
      programCounter := 2
      addrOffset := 64 }
    input := []
    output := [] }

/-- C1 (code-bug exhibit): the growth checks compare the raw logical
pointer against 0 and the backing length, ignoring `addr_offset`.
First fact: running `progCrash` on a fresh default engine raises
`IndexError` — after the moves the pointer's physical index (64) is not
a valid index into the 64-cell store, so the claimed invariant fails and
the next write crashes.  Second fact: `<<` grows the tape to 96 cells —
the second `<` triggers another chunk although its new address (-2,
physical index 30) was already inside the 64-cell backing store, so
growth also fires when not needed. -/
theorem c1_growth_code_bug :
    evaluate 40 m0 progCrash = some (.error .indexError) ∧
    evaluate 10 m0 ['<', '<'] = some (.ok (mLL, 2)) :=
  ⟨by decide, by decide⟩

end BFI

